import Mathlib

/-!
Verification of `time_ms_conversions` (src/lib.rs): a shallow embedding of the
crate's conversion functions between epoch-millisecond timestamps and UTC
date-times, together with proofs about them.

Conventions of the embedding:
- Rust `i64` values are modelled as `Int`; where signed overflow matters, a
  separate checked variant returns `Option` (`none` models the arithmetic
  overflow that Rust reports as a panic in debug builds).
- Rust truncating division `/` and remainder `%` on `i64` are `Int.tdiv` and
  `Int.tmod`.
- Rust strings are `List Char`; Rust byte indices are computed from
  `Char.utf8Size`.
- The `chrono` library is external to the crate: its datetime values are
  modelled by the data the crate observes of them (`timestamp_nanos`), and its
  parsing and local-timezone functions are an abstract environment
  (`ChronoEnv`) that the embedded functions take as a parameter.
-/

/-- Smallest `i64` value, `-(2^63)`. -/
def i64min : Int := -9223372036854775808

/-- Largest `i64` value, `2^63 - 1`. -/
def i64max : Int := 9223372036854775807

/-- Checked `i64` arithmetic: `some x` when `x` fits in `i64`, otherwise `none`
(modelling the signed-overflow panic of a Rust debug build). -/
def i64chk (x : Int) : Option Int :=
  if i64min ≤ x ∧ x ≤ i64max then some x else none

/-- Checked `u32` arithmetic: `some x` when `x` fits in `u32`, otherwise `none`
(modelling the unsigned overflow/underflow panic of a Rust debug build). -/
def u32chk (x : Int) : Option Int :=
  if 0 ≤ x ∧ x < 4294967296 then some x else none

/-- Rust `as u32` cast: wraps modulo `2^32` (the cast itself never panics).
`%` on `Int` is Euclidean remainder, so the result is the `u32` value. -/
def as_u32 (x : Int) : Int := x % 4294967296

/-- `time_ms_to_secs_nsecs` from src/lib.rs lines 7-49, value-level semantics
(mathematical integers; see `time_ms_to_secs_nsecs_checked` for the overflow
behaviour at the `i64` boundary).  `secs = time_ms / 1000` truncating; for
negative input the remainder `millis = (-time_ms) % 1000`, when positive, is
mapped to `1000 - millis` and `secs` is decremented, so that the nanosecond
component is non-negative. -/
def time_ms_to_secs_nsecs (time_ms : Int) : Int × Int :=
  let secs := time_ms.tdiv 1000
  if time_ms < 0 then
    let millis := (-time_ms).tmod 1000
    if millis > 0 then
      (secs - 1, (1000 - millis) * 1000000)
    else
      (secs, millis * 1000000)
  else
    (secs, (time_ms.tmod 1000) * 1000000)

/-- `time_ms_to_secs_nsecs` with every `i64`/`u32` arithmetic step checked for
overflow, mirroring the evaluation order of the Rust source: `none` models the
panic of an overflow-checked build.  The `as u32` cast of `-time_ms % 1_000`
wraps (Rust `as` casts never panic). -/
def time_ms_to_secs_nsecs_checked (time_ms : Int) : Option (Int × Int) :=
  (i64chk (time_ms.tdiv 1000)).bind fun secs =>
  if time_ms < 0 then
    (i64chk (-time_ms)).bind fun neg_time_ms =>
    let millis := as_u32 (neg_time_ms.tmod 1000)
    if millis > 0 then
      (i64chk (secs - 1)).bind fun secs2 =>
      (u32chk (1000 - millis)).bind fun millis2 =>
      (u32chk (millis2 * 1000000)).bind fun nsecs =>
      some (secs2, nsecs)
    else
      (u32chk (millis * 1000000)).bind fun nsecs =>
      some (secs, nsecs)
  else
    let millis := as_u32 (time_ms.tmod 1000)
    (u32chk (millis * 1000000)).bind fun nsecs =>
    some (secs, nsecs)

/-- `DateTime<Utc>` as constructed by `time_ms_to_utc`: the `(secs, nsecs)`
pair handed to `NaiveDateTime::from_timestamp`. -/
structure DateTimeUtc where
  secs : Int
  nsecs : Int
deriving DecidableEq

/-- chrono's `timestamp_nanos` of a `DateTime<Utc>`: total nanoseconds since
the epoch, `secs * 10^9 + nsecs`. -/
def DateTimeUtc.timestamp_nanos (d : DateTimeUtc) : Int :=
  d.secs * 1000000000 + d.nsecs

/-- `DateTime<FixedOffset>` as observed by the crate: only its
`timestamp_nanos` (absolute nanoseconds since the epoch, already normalized to
UTC) is ever used. -/
structure DateTimeFixedOffset where
  timestampNanos : Int
deriving DecidableEq

/-- `fo_to_time_ms` from src/lib.rs lines 3-5:
`(date_time.timestamp_nanos() + 500_000) / 1_000_000` with truncating `i64`
division. -/
def fo_to_time_ms (date_time : DateTimeFixedOffset) : Int :=
  (date_time.timestampNanos + 500000).tdiv 1000000

/-- `time_ms_to_utc` from src/lib.rs lines 83-87: builds the UTC datetime from
the `(secs, nsecs)` pair of the splitter. -/
def time_ms_to_utc (time_ms : Int) : DateTimeUtc :=
  let sn := time_ms_to_secs_nsecs time_ms
  ⟨sn.1, sn.2⟩

/-- `utc_to_time_ms` from src/lib.rs lines 99-101:
`(date_time.timestamp_nanos() + 500_000) / 1_000_000` with truncating `i64`
division. -/
def utc_to_time_ms (date_time : DateTimeUtc) : Int :=
  (date_time.timestamp_nanos + 500000).tdiv 1000000

/-! ## Arithmetic helper lemmas about the splitter -/

/-- Truncating remainder is odd in its dividend. -/
lemma neg_tmod_eq (a b : Int) : (-a).tmod b = -(a.tmod b) := by
  rw [Int.tmod_def, Int.tmod_def, Int.neg_tdiv]
  ring

/-- `i64chk` succeeds on values within the `i64` range. -/
lemma i64chk_some {x : Int} (hl : i64min ≤ x) (hr : x ≤ i64max) : i64chk x = some x := by
  unfold i64chk
  exact if_pos ⟨hl, hr⟩

/-- `u32chk` succeeds on values within the `u32` range. -/
lemma u32chk_some {x : Int} (hl : 0 ≤ x) (hr : x < 4294967296) : u32chk x = some x := by
  unfold u32chk
  exact if_pos ⟨hl, hr⟩

/-- The wrapping `as u32` cast is the identity on the `u32` range. -/
lemma as_u32_id {x : Int} (hl : 0 ≤ x) (hr : x < 4294967296) : as_u32 x = x := by
  unfold as_u32
  omega

/-- The `(secs, nsecs)` pair of the splitter always carries exactly
`time_ms * 10^6` total nanoseconds. -/
lemma time_ms_to_secs_nsecs_nanos (t : Int) :
    (time_ms_to_secs_nsecs t).1 * 1000000000 + (time_ms_to_secs_nsecs t).2 = t * 1000000 := by
  have hq := Int.tdiv_add_tmod t 1000
  have hneg := neg_tmod_eq t 1000
  simp only [time_ms_to_secs_nsecs]
  split_ifs with h hm
  · have hc : 0 ≤ (-t).tmod 1000 := Int.tmod_nonneg 1000 (by omega)
    dsimp only
    omega
  · have hc : 0 ≤ (-t).tmod 1000 := Int.tmod_nonneg 1000 (by omega)
    dsimp only
    omega
  · have he : 0 ≤ t.tmod 1000 := Int.tmod_nonneg 1000 (by omega)
    dsimp only
    omega

/-- The nanosecond component of the splitter lies in `[0, 999000000]`. -/
lemma time_ms_to_secs_nsecs_nsecs_range (t : Int) :
    0 ≤ (time_ms_to_secs_nsecs t).2 ∧ (time_ms_to_secs_nsecs t).2 ≤ 999000000 := by
  have hq := Int.tdiv_add_tmod t 1000
  have hneg := neg_tmod_eq t 1000
  simp only [time_ms_to_secs_nsecs]
  split_ifs with h hm
  · have hc : 0 ≤ (-t).tmod 1000 := Int.tmod_nonneg 1000 (by omega)
    have ha : (-t).tmod 1000 < 1000 := Int.tmod_lt_of_pos (-t) (by omega)
    dsimp only
    omega
  · have hc : 0 ≤ (-t).tmod 1000 := Int.tmod_nonneg 1000 (by omega)
    dsimp only
    omega
  · have he : 0 ≤ t.tmod 1000 := Int.tmod_nonneg 1000 (by omega)
    have hb : t.tmod 1000 < 1000 := Int.tmod_lt_of_pos t (by omega)
    dsimp only
    omega

/-- The nanosecond component of the splitter is a multiple of `10^6`. -/
lemma time_ms_to_secs_nsecs_nsecs_dvd (t : Int) :
    (1000000 : Int) ∣ (time_ms_to_secs_nsecs t).2 := by
  simp only [time_ms_to_secs_nsecs]
  split_ifs with h hm <;> dsimp only <;> exact dvd_mul_left _ _

/-- Under the `i64` bounds (excluding `i64::MIN`), every checked arithmetic
step of the splitter stays in range, and the checked evaluation agrees with
the value-level one. -/
lemma time_ms_to_secs_nsecs_checked_eq (t : Int) (h1 : i64min < t) (h2 : t ≤ i64max) :
    time_ms_to_secs_nsecs_checked t = some (time_ms_to_secs_nsecs t) := by
  simp only [i64min, i64max] at h1 h2
  have hq := Int.tdiv_add_tmod t 1000
  have hneg := neg_tmod_eq t 1000
  have hd : (t.tdiv 1000).natAbs = t.natAbs / 1000 := Int.natAbs_tdiv t 1000
  have e1 : i64chk (t.tdiv 1000) = some (t.tdiv 1000) :=
    i64chk_some (by simp only [i64min]; omega) (by simp only [i64max]; omega)
  rcases lt_or_le t 0 with h | h
  · have hc : 0 ≤ (-t).tmod 1000 := Int.tmod_nonneg 1000 (by omega)
    have ha : (-t).tmod 1000 < 1000 := Int.tmod_lt_of_pos (-t) (by omega)
    have e2 : i64chk (-t) = some (-t) :=
      i64chk_some (by simp only [i64min]; omega) (by simp only [i64max]; omega)
    have e3 : as_u32 ((-t).tmod 1000) = (-t).tmod 1000 := as_u32_id hc (by omega)
    simp only [time_ms_to_secs_nsecs_checked, time_ms_to_secs_nsecs, e1, e2, e3,
      Option.some_bind, if_pos h]
    by_cases hm : (-t).tmod 1000 > 0
    · have e4 : i64chk (t.tdiv 1000 - 1) = some (t.tdiv 1000 - 1) :=
        i64chk_some (by simp only [i64min]; omega) (by simp only [i64max]; omega)
      have e5 : u32chk (1000 - (-t).tmod 1000) = some (1000 - (-t).tmod 1000) :=
        u32chk_some (by omega) (by omega)
      have e6 : u32chk ((1000 - (-t).tmod 1000) * 1000000) =
          some ((1000 - (-t).tmod 1000) * 1000000) :=
        u32chk_some (by omega) (by omega)
      simp only [if_pos hm, e4, e5, e6, Option.some_bind]
    · have e7 : u32chk ((-t).tmod 1000 * 1000000) = some ((-t).tmod 1000 * 1000000) :=
        u32chk_some (by omega) (by omega)
      simp only [if_neg hm, e7, Option.some_bind]
  · have he : 0 ≤ t.tmod 1000 := Int.tmod_nonneg 1000 h
    have hb : t.tmod 1000 < 1000 := Int.tmod_lt_of_pos t (by omega)
    have hnot : ¬ t < 0 := by omega
    have e3 : as_u32 (t.tmod 1000) = t.tmod 1000 := as_u32_id he (by omega)
    have e7 : u32chk (t.tmod 1000 * 1000000) = some (t.tmod 1000 * 1000000) :=
      u32chk_some (by omega) (by omega)
    simp only [time_ms_to_secs_nsecs_checked, time_ms_to_secs_nsecs, e1, e3, e7,
      Option.some_bind, if_neg hnot]

/-! ## Claims C1, C2, C3, C10: the splitter and the ms round trip -/

/-- Claim C1 (code bug evaluation): the round trip `time_ms_to_utc` followed by
`utc_to_time_ms` does NOT return `-1` at input `-1`; it returns `0`, because
`(-1_000_000 + 500_000) / 1_000_000` is `0` under Rust's truncating division. -/
theorem claim_C1_roundtrip_fails_at_neg_one :
    utc_to_time_ms (time_ms_to_utc (-1)) = 0 ∧ utc_to_time_ms (time_ms_to_utc (-1)) ≠ -1 := by
  decide

/-- Claim C2 counterexample: at `time_ms = i64::MIN` the splitter's `i64`
evaluation overflows (Rust debug panic) instead of returning a pair. -/
theorem claim_C2_counterexample_minint :
    time_ms_to_secs_nsecs_checked i64min = none := by decide

/-- Claim C2 (amended): for every i64 `time_ms` other than `i64::MIN`, the
splitter evaluates without overflow to a pair `(secs, nsecs)` with
`nsecs ∈ [0, 999_999_999]`, `nsecs` a multiple of `1_000_000`, and
`secs * 1000 + nsecs / 1_000_000 = time_ms`. -/
theorem claim_C2_splitter_contract (t : Int) (h1 : i64min < t) (h2 : t ≤ i64max) :
    time_ms_to_secs_nsecs_checked t = some (time_ms_to_secs_nsecs t) ∧
    0 ≤ (time_ms_to_secs_nsecs t).2 ∧ (time_ms_to_secs_nsecs t).2 ≤ 999999999 ∧
    (1000000 : Int) ∣ (time_ms_to_secs_nsecs t).2 ∧
    (time_ms_to_secs_nsecs t).1 * 1000 + (time_ms_to_secs_nsecs t).2.tdiv 1000000 = t := by
  obtain ⟨m, hm⟩ := time_ms_to_secs_nsecs_nsecs_dvd t
  have hnan := time_ms_to_secs_nsecs_nanos t
  have hrange := time_ms_to_secs_nsecs_nsecs_range t
  refine ⟨time_ms_to_secs_nsecs_checked_eq t h1 h2, hrange.1, by omega, ⟨m, hm⟩, ?_⟩
  have : (time_ms_to_secs_nsecs t).2.tdiv 1000000 = m := by
    rw [hm, mul_comm, Int.mul_tdiv_cancel _ (by norm_num)]
  omega

/-- Claim C2 witness at `time_ms = -1001`. -/
theorem claim_C2_splitter_contract_witness :
    (i64min < -1001 ∧ (-1001 : Int) ≤ i64max) ∧
    (time_ms_to_secs_nsecs_checked (-1001) = some (time_ms_to_secs_nsecs (-1001)) ∧
    0 ≤ (time_ms_to_secs_nsecs (-1001)).2 ∧ (time_ms_to_secs_nsecs (-1001)).2 ≤ 999999999 ∧
    (1000000 : Int) ∣ (time_ms_to_secs_nsecs (-1001)).2 ∧
    (time_ms_to_secs_nsecs (-1001)).1 * 1000 + (time_ms_to_secs_nsecs (-1001)).2.tdiv 1000000
      = -1001) :=
  ⟨⟨by decide, by decide⟩, claim_C2_splitter_contract (-1001) (by decide) (by decide)⟩

/-- Claim C3: the splitter's exact values at the nine listed inputs. -/
theorem claim_C3_splitter_exact_values :
    time_ms_to_secs_nsecs (-2001) = (-3, 999000000) ∧
    time_ms_to_secs_nsecs (-2000) = (-2, 0) ∧
    time_ms_to_secs_nsecs (-1999) = (-2, 1000000) ∧
    time_ms_to_secs_nsecs (-1001) = (-2, 999000000) ∧
    time_ms_to_secs_nsecs (-1000) = (-1, 0) ∧
    time_ms_to_secs_nsecs (-1) = (-1, 999000000) ∧
    time_ms_to_secs_nsecs 0 = (0, 0) ∧
    time_ms_to_secs_nsecs 999 = (0, 999000000) ∧
    time_ms_to_secs_nsecs 1000 = (1, 0) := by
  decide

/-- Claim C10 counterexample: at `time_ms = i64::MIN` the negation `-time_ms`
taken in the negative branch does NOT stay within `i64` range. -/
theorem claim_C10_counterexample_negation_overflows :
    i64chk (-i64min) = none := by decide

/-- Claim C10 (amended): for every i64 `time_ms` other than `i64::MIN`,
evaluating the splitter is free of integer overflow (every checked step is in
range, so the checked evaluation produces a result). -/
theorem claim_C10_overflow_free_except_minint (t : Int)
    (h1 : i64min ≤ t) (h2 : t ≤ i64max) (h3 : t ≠ i64min) :
    (time_ms_to_secs_nsecs_checked t).isSome = true := by
  rw [time_ms_to_secs_nsecs_checked_eq t (by omega) h2]
  rfl

/-- Claim C10 witness at `time_ms = -2001`. -/
theorem claim_C10_overflow_free_witness :
    (i64min ≤ -2001 ∧ (-2001 : Int) ≤ i64max ∧ (-2001 : Int) ≠ i64min) ∧
    (time_ms_to_secs_nsecs_checked (-2001)).isSome = true :=
  ⟨⟨by decide, by decide, by decide⟩,
    claim_C10_overflow_free_except_minint (-2001) (by decide) (by decide) (by decide)⟩

/-! ## Claim C5: the nanosecond-to-millisecond rounding rule -/

/-- Modelled from the spec's words: round-half-up from nanoseconds to
milliseconds, i.e. the nearest millisecond with ties toward positive infinity,
which is the floor of `(nanos + 500_000) / 1_000_000`. -/
def spec_round_half_up (nanos : Int) : Int :=
  (nanos + 500000).fdiv 1000000

/-- The epoch instant, `(0 secs, 0 nsecs)`. -/
def epochInstant : DateTimeUtc := ⟨0, 0⟩

/-- A pre-epoch instant, `1969-12-31T23:59:59.9994Z`: its `timestamp_nanos` is
`-600_000`. -/
def preEpochInstant : DateTimeUtc := ⟨-1, 999400000⟩

/-- Claim C5 counterexample: at a pre-epoch instant the code's truncating
division does not agree with round-half-up: the code yields `0` where
round-half-up yields `-1`. -/
theorem claim_C5_counterexample_pre_epoch :
    utc_to_time_ms preEpochInstant = 0 ∧
    spec_round_half_up preEpochInstant.timestamp_nanos = -1 := by
  decide

/-- Claim C5 (amended): `utc_to_time_ms` and `fo_to_time_ms` compute exactly
`(timestamp_nanos + 500_000)` truncation-divided by `1_000_000`; for instants
at or after the epoch (non-negative nanoseconds) this coincides with
round-half-up, while for pre-epoch instants the truncation rounds toward zero
instead. -/
theorem claim_C5_rounding_rule (d : DateTimeUtc) (fo : DateTimeFixedOffset) :
    utc_to_time_ms d = (d.timestamp_nanos + 500000).tdiv 1000000 ∧
    fo_to_time_ms fo = (fo.timestampNanos + 500000).tdiv 1000000 ∧
    (0 ≤ d.timestamp_nanos → utc_to_time_ms d = spec_round_half_up d.timestamp_nanos) ∧
    (0 ≤ fo.timestampNanos → fo_to_time_ms fo = spec_round_half_up fo.timestampNanos) := by
  refine ⟨rfl, rfl, fun h => ?_, fun h => ?_⟩
  · unfold utc_to_time_ms spec_round_half_up
    exact (Int.fdiv_eq_tdiv (by omega) (by omega)).symm
  · unfold fo_to_time_ms spec_round_half_up
    exact (Int.fdiv_eq_tdiv (by omega) (by omega)).symm

/-- Claim C5 witness at the epoch instant and the epoch fixed-offset instant. -/
theorem claim_C5_rounding_rule_witness :
    (0 ≤ epochInstant.timestamp_nanos ∧
      utc_to_time_ms epochInstant = spec_round_half_up epochInstant.timestamp_nanos) ∧
    (0 ≤ DateTimeFixedOffset.timestampNanos ⟨0⟩ ∧
      fo_to_time_ms ⟨0⟩ = spec_round_half_up (DateTimeFixedOffset.timestampNanos ⟨0⟩)) :=
  ⟨⟨by decide, (claim_C5_rounding_rule epochInstant ⟨0⟩).2.2.1 (by decide)⟩,
   ⟨by decide, (claim_C5_rounding_rule epochInstant ⟨0⟩).2.2.2 (by decide)⟩⟩

/-! ## The string model: Rust strings as `List Char` with byte indices -/

/-- Rust `char::is_whitespace`: the Unicode `White_Space` property. -/
def rustIsWhitespace (c : Char) : Bool :=
  decide ((0x09 ≤ c.toNat ∧ c.toNat ≤ 0x0D) ∨ c.toNat = 0x20 ∨ c.toNat = 0x85 ∨
    c.toNat = 0xA0 ∨ c.toNat = 0x1680 ∨ (0x2000 ≤ c.toNat ∧ c.toNat ≤ 0x200A) ∨
    c.toNat = 0x2028 ∨ c.toNat = 0x2029 ∨ c.toNat = 0x202F ∨ c.toNat = 0x205F ∨
    c.toNat = 0x3000)

/-- Rust `str::trim`: drop leading and trailing whitespace. -/
def rust_trim (s : List Char) : List Char :=
  ((s.dropWhile rustIsWhitespace).reverse.dropWhile rustIsWhitespace).reverse

/-- The UTF-8 byte length of a string, as Rust counts indices. -/
def utf8Length (s : List Char) : Nat := (s.map Char.utf8Size).sum

/-- Rust `s.rmatch_indices(c).next()`: the byte index of the rightmost
occurrence of the character `c`, if any. -/
def rmatch_first_idx (c : Char) : List Char → Option Nat
  | [] => none
  | x :: xs =>
    match rmatch_first_idx c xs with
    | some i => some (x.utf8Size + i)
    | none => if x = c then some 0 else none

/-! ## The timezone-massaging parser -/

/-- `TzMassaging` from src/lib.rs lines 103-107. -/
inductive TzMassaging where
  | CondAddTzUtc
  | HasTz
  | LocalTz

/-- The error type of the parser: `parse` models a propagated chrono
`ParseError` (the `?` operator), `msg` the string errors built by the crate
itself. -/
inductive ConvError where
  | parse
  | msg (s : String)
deriving DecidableEq

/-- The exact error string at src/lib.rs line 215. -/
def errNoResult : String := "No result"

/-- The exact error string at src/lib.rs line 219 (spelled so in the source). -/
def errAmbigious : String := "Ambigious result"

/-- chrono `NaiveDateTime`, abstract: only passed to the environment. -/
structure NaiveDateTime where
  nanos : Int
deriving DecidableEq

/-- chrono `DateTime<Local>`, abstract: only passed to the environment. -/
structure DateTimeLocal where
  utcNanos : Int
deriving DecidableEq

/-- chrono `LocalResult`. -/
inductive LocalResult (α : Type) where
  | none
  | single (dt : α)
  | ambiguous (dt1 dt2 : α)

/-- The chrono operations the crate calls, abstracted: parse of an
offset-bearing string, parse of a naive string, local-timezone resolution of a
naive date-time, and conversion of a local date-time to its UTC view. -/
structure ChronoEnv where
  parseFromStr : List Char → List Char → Option DateTimeFixedOffset
  parseNaiveFromStr : List Char → List Char → Option NaiveDateTime
  fromLocalDatetime : NaiveDateTime → LocalResult DateTimeLocal
  withTimezoneUtc : DateTimeLocal → DateTimeUtc

/-- The format-string suffix `%#z` appended for offset parsing. -/
def pctHashZ : List Char := "%#z".toList

/-- The literal UTC suffix appended by `CondAddTzUtc`. -/
def plus0000 : List Char := "+0000".toList

/-- The layout used when the input contains exactly one `T`. -/
def fmtWithT : List Char := "%Y-%m-%dT%H:%M:%S%.f".toList

/-- The layout used otherwise (space separator). -/
def fmtWithSpace : List Char := "%Y-%m-%d %H:%M:%S%.f".toList

/-- `dt_str_with_fmt_str_to_utc_time_ms` from src/lib.rs lines 168-230. -/
def dt_str_with_fmt_str_to_utc_time_ms (env : ChronoEnv) (dt_str fmt_str : List Char)
    (tz_massaging : TzMassaging) : Except ConvError Int :=
  let dt_str := rust_trim dt_str
  match tz_massaging with
  | .HasTz =>
    let fs := fmt_str ++ pctHashZ
    match env.parseFromStr dt_str fs with
    | some dtfo => .ok (fo_to_time_ms dtfo)
    | none => .error .parse
  | .CondAddTzUtc =>
    let fs := fmt_str ++ pctHashZ
    let has_pos_tz : Bool := decide (dt_str.count '+' > 0)
    let has_neg_tz : Bool :=
      match rmatch_first_idx '-' dt_str with
      | some idx => decide (idx > 7)
      | none => false
    let s := if !has_pos_tz && !has_neg_tz then dt_str ++ plus0000 else dt_str
    match env.parseFromStr s fs with
    | some dtfo => .ok (fo_to_time_ms dtfo)
    | none => .error .parse
  | .LocalTz =>
    match env.parseNaiveFromStr dt_str fmt_str with
    | none => .error .parse
    | some ndt =>
      match env.fromLocalDatetime ndt with
      | .none => .error (.msg errNoResult)
      | .single dt => .ok (utc_to_time_ms (env.withTimezoneUtc dt))
      | .ambiguous _ _ => .error (.msg errAmbigious)

/-- `dt_str_to_utc_time_ms` from src/lib.rs lines 164-239: pick the layout by
counting `T` separators, then delegate. -/
def dt_str_to_utc_time_ms (env : ChronoEnv) (dt_str : List Char)
    (tz_massaging : TzMassaging) : Except ConvError Int :=
  if dt_str.count 'T' = 1 then
    dt_str_with_fmt_str_to_utc_time_ms env dt_str fmtWithT tz_massaging
  else
    dt_str_with_fmt_str_to_utc_time_ms env dt_str fmtWithSpace tz_massaging

/-- The `HasTz` handling applied to an already-trimmed string: parse with the
offset-suffixed format and convert, a parse failure becoming a typed error. -/
def parse_has_tz (env : ChronoEnv) (s fmt_str : List Char) : Except ConvError Int :=
  match env.parseFromStr s (fmt_str ++ pctHashZ) with
  | some dtfo => .ok (fo_to_time_ms dtfo)
  | none => .error .parse

/-- The offset-detection condition computed by the `CondAddTzUtc` branch:
a `+` occurs, or the rightmost `-` sits at byte index greater than 7. -/
def cond_has_tz (dt_str : List Char) : Bool :=
  decide (dt_str.count '+' > 0) ||
    (match rmatch_first_idx '-' dt_str with
     | some idx => decide (idx > 7)
     | none => false)

/-- The spec's wording of offset detection: the string contains at least one
`+` character, or contains a `-` character at a byte index strictly greater
than 7. -/
def specHasExplicitOffset (s : List Char) : Prop :=
  '+' ∈ s ∨ ∃ a b, s = a ++ '-' :: b ∧ utf8Length a > 7

/-! ## Lemmas about the rightmost-match byte index -/

/-- If `rmatch_first_idx` finds nothing, the character does not occur. -/
lemma rmatch_first_idx_none {c : Char} {s : List Char}
    (h : rmatch_first_idx c s = none) : c ∉ s := by
  induction s with
  | nil => simp
  | cons x xs ih =>
    simp only [rmatch_first_idx] at h
    cases hx : rmatch_first_idx c xs with
    | some i => rw [hx] at h; exact Option.noConfusion h
    | none =>
      rw [hx] at h
      by_cases hxc : x = c
      · rw [if_pos hxc] at h; exact Option.noConfusion h
      · intro hmem
        rcases List.mem_cons.mp hmem with h1 | h1
        · exact hxc h1.symm
        · exact ih hx h1

/-- A found index is the byte index of an actual occurrence. -/
lemma rmatch_first_idx_some_split {c : Char} {s : List Char} {i : Nat}
    (h : rmatch_first_idx c s = some i) :
    ∃ a b, s = a ++ c :: b ∧ utf8Length a = i := by
  induction s generalizing i with
  | nil => exact Option.noConfusion h
  | cons x xs ih =>
    simp only [rmatch_first_idx] at h
    cases hx : rmatch_first_idx c xs with
    | some j =>
      rw [hx] at h
      simp only [Option.some.injEq] at h
      obtain ⟨a, b, hab, hlen⟩ := ih hx
      refine ⟨x :: a, b, by rw [hab]; rfl, ?_⟩
      simp only [utf8Length, List.map_cons, List.sum_cons] at hlen ⊢
      omega
    | none =>
      rw [hx] at h
      by_cases hxc : x = c
      · rw [if_pos hxc] at h
        simp only [Option.some.injEq] at h
        exact ⟨[], xs, by rw [hxc]; rfl, by simp [utf8Length, ← h]⟩
      · rw [if_neg hxc] at h; exact Option.noConfusion h

/-- The found index is the rightmost one: it bounds the byte index of every
occurrence. -/
lemma rmatch_first_idx_max {c : Char} {s : List Char} {i : Nat}
    (h : rmatch_first_idx c s = some i) :
    ∀ a b, s = a ++ c :: b → utf8Length a ≤ i := by
  induction s generalizing i with
  | nil => exact Option.noConfusion h
  | cons x xs ih =>
    intro a b hab
    simp only [rmatch_first_idx] at h
    cases hx : rmatch_first_idx c xs with
    | some j =>
      rw [hx] at h
      simp only [Option.some.injEq] at h
      cases a with
      | nil => simp [utf8Length]
      | cons y a2 =>
        injection hab with hy hxs
        have hle := ih hx a2 b hxs
        simp only [utf8Length, List.map_cons, List.sum_cons]
        simp only [utf8Length] at hle
        subst hy
        omega
    | none =>
      rw [hx] at h
      by_cases hxc : x = c
      · rw [if_pos hxc] at h
        simp only [Option.some.injEq] at h
        cases a with
        | nil => simp [utf8Length]
        | cons y a2 =>
          injection hab with hy hxs
          exact absurd (hxs ▸ List.mem_append.mpr (Or.inr (List.mem_cons_self c b)))
            (rmatch_first_idx_none hx)
      · rw [if_neg hxc] at h; exact Option.noConfusion h

/-- The code's offset-detection condition is exactly the spec's. -/
lemma cond_has_tz_iff (s : List Char) :
    cond_has_tz s = true ↔ specHasExplicitOffset s := by
  unfold cond_has_tz specHasExplicitOffset
  rw [Bool.or_eq_true]
  constructor
  · intro h
    rcases h with h | h
    · exact Or.inl (List.count_pos_iff.mp (of_decide_eq_true h))
    · right
      cases hx : rmatch_first_idx '-' s with
      | none => rw [hx] at h; exact Bool.noConfusion h
      | some i =>
        rw [hx] at h
        have hi : i > 7 := of_decide_eq_true h
        obtain ⟨a, b, hab, hlen⟩ := rmatch_first_idx_some_split hx
        exact ⟨a, b, hab, by omega⟩
  · intro h
    rcases h with h | ⟨a, b, hab, hlen⟩
    · exact Or.inl (decide_eq_true (List.count_pos_iff.mpr h))
    · right
      cases hx : rmatch_first_idx '-' s with
      | none =>
        exact absurd (hab ▸ List.mem_append.mpr (Or.inr (List.mem_cons_self '-' b)))
          (rmatch_first_idx_none hx)
      | some i =>
        have hle := rmatch_first_idx_max hx a b hab
        exact decide_eq_true (by omega)

/-! ## Claim C4: the CondAddTzUtc offset heuristic -/

/-- The source's `if !has_pos_tz && !has_neg_tz` branch shape, rephrased on
the disjunction of the two flags. -/
lemma if_not_and {α : Type} (p q : Bool) (X Y : α) :
    (if (!p && !q) = true then X else Y) = if (p || q) = true then Y else X := by
  cases p <;> cases q <;> rfl

/-- Claim C4: under `CondAddTzUtc`, an explicit offset is deemed present on
the trimmed string exactly when it contains a `+` or a `-` at byte index
greater than 7; when absent, the literal `+0000` is appended before parsing,
otherwise the string is parsed unchanged, and in both cases the parse is
exactly the `HasTz` handling. -/
theorem claim_C4_cond_add_tz_utc (env : ChronoEnv) (dt_str fmt_str : List Char) :
    (cond_has_tz (rust_trim dt_str) = true ↔ specHasExplicitOffset (rust_trim dt_str)) ∧
    dt_str_with_fmt_str_to_utc_time_ms env dt_str fmt_str .CondAddTzUtc =
      parse_has_tz env
        (if cond_has_tz (rust_trim dt_str) then rust_trim dt_str
         else rust_trim dt_str ++ plus0000) fmt_str ∧
    dt_str_with_fmt_str_to_utc_time_ms env dt_str fmt_str .HasTz =
      parse_has_tz env (rust_trim dt_str) fmt_str := by
  refine ⟨cond_has_tz_iff _, ?_, rfl⟩
  simp only [dt_str_with_fmt_str_to_utc_time_ms, parse_has_tz, cond_has_tz, if_not_and]

/-- A sample date-time string. -/
def sampleDT : List Char := "1970-01-01T00:00:00".toList

/-- A concrete environment whose operations always succeed with fixed values. -/
def envConst : ChronoEnv where
  parseFromStr := fun _ _ => some ⟨0⟩
  parseNaiveFromStr := fun _ _ => some ⟨0⟩
  fromLocalDatetime := fun _ => .single ⟨0⟩
  withTimezoneUtc := fun _ => ⟨0, 0⟩

/-- A concrete environment whose parses always fail. -/
def envNoParse : ChronoEnv where
  parseFromStr := fun _ _ => none
  parseNaiveFromStr := fun _ _ => none
  fromLocalDatetime := fun _ => .none
  withTimezoneUtc := fun _ => ⟨0, 0⟩

/-- A concrete environment whose naive parse succeeds and whose local-timezone
resolution is ambiguous (a repeated wall-clock interval). -/
def envAmbiguous : ChronoEnv where
  parseFromStr := fun _ _ => none
  parseNaiveFromStr := fun _ _ => some ⟨0⟩
  fromLocalDatetime := fun _ => .ambiguous ⟨0⟩ ⟨0⟩
  withTimezoneUtc := fun _ => ⟨0, 0⟩

/-- Claim C4 witness: a concrete no-offset string is massaged to carry
`+0000` and handled as `HasTz`. -/
theorem claim_C4_cond_add_tz_utc_witness :
    dt_str_with_fmt_str_to_utc_time_ms envConst sampleDT fmtWithT .CondAddTzUtc =
      parse_has_tz envConst
        (if cond_has_tz (rust_trim sampleDT) then rust_trim sampleDT
         else rust_trim sampleDT ++ plus0000) fmtWithT :=
  (claim_C4_cond_add_tz_utc envConst sampleDT fmtWithT).2.1

/-! ## Claims C6, C7: LocalTz and HasTz error handling -/

/-- Claim C6 (amended): under `LocalTz`, once the naive parse succeeds, an
ambiguous local-timezone resolution yields the error message spelled
`"Ambigious result"` in the source, an empty resolution yields `"No result"`,
the two are distinct errors, and only a single resolution yields a value. -/
theorem claim_C6_local_tz_errors (env : ChronoEnv) (dt_str fmt_str : List Char)
    (ndt : NaiveDateTime)
    (hp : env.parseNaiveFromStr (rust_trim dt_str) fmt_str = some ndt) :
    (∀ a b, env.fromLocalDatetime ndt = .ambiguous a b →
      dt_str_with_fmt_str_to_utc_time_ms env dt_str fmt_str .LocalTz =
        .error (.msg errAmbigious)) ∧
    (env.fromLocalDatetime ndt = .none →
      dt_str_with_fmt_str_to_utc_time_ms env dt_str fmt_str .LocalTz =
        .error (.msg errNoResult)) ∧
    ConvError.msg errAmbigious ≠ ConvError.msg errNoResult ∧
    (∀ a, env.fromLocalDatetime ndt = .single a →
      dt_str_with_fmt_str_to_utc_time_ms env dt_str fmt_str .LocalTz =
        .ok (utc_to_time_ms (env.withTimezoneUtc a))) := by
  refine ⟨fun a b hr => ?_, fun hr => ?_, by decide, fun a hr => ?_⟩ <;>
    simp only [dt_str_with_fmt_str_to_utc_time_ms, hp, hr]

/-- Claim C6 witness: a concrete environment with an ambiguous local
resolution produces exactly the misspelled error. -/
theorem claim_C6_local_tz_errors_witness :
    envAmbiguous.parseNaiveFromStr (rust_trim sampleDT) fmtWithT = some ⟨0⟩ ∧
    dt_str_with_fmt_str_to_utc_time_ms envAmbiguous sampleDT fmtWithT .LocalTz =
      .error (.msg errAmbigious) :=
  ⟨rfl, (claim_C6_local_tz_errors envAmbiguous sampleDT fmtWithT ⟨0⟩ rfl).1 ⟨0⟩ ⟨0⟩ rfl⟩

/-- Claim C6 counterexample: the error reported for an ambiguous local time is
the string `"Ambigious result"`, not the claim's `"ambiguous result"` (in any
capitalization). -/
theorem claim_C6_counterexample_misspelled_error :
    dt_str_to_utc_time_ms envAmbiguous sampleDT .LocalTz = .error (.msg errAmbigious) ∧
    errAmbigious ≠ "ambiguous result" ∧ errAmbigious ≠ "Ambiguous result" := by
  refine ⟨rfl, by decide, by decide⟩

/-- Claim C7: under `HasTz`, a chrono parse failure (in particular a string
carrying no recognizable numeric offset) yields a typed error, never a crash
or a silent default; a successful parse is converted with `fo_to_time_ms`,
i.e. from the offset-normalized UTC nanoseconds of the instant. -/
theorem claim_C7_has_tz_error_handling (env : ChronoEnv) (dt_str fmt_str : List Char) :
    (env.parseFromStr (rust_trim dt_str) (fmt_str ++ pctHashZ) = none →
      dt_str_with_fmt_str_to_utc_time_ms env dt_str fmt_str .HasTz = .error .parse) ∧
    (∀ dtfo, env.parseFromStr (rust_trim dt_str) (fmt_str ++ pctHashZ) = some dtfo →
      dt_str_with_fmt_str_to_utc_time_ms env dt_str fmt_str .HasTz =
        .ok (fo_to_time_ms dtfo)) := by
  refine ⟨fun h => ?_, fun dtfo h => ?_⟩ <;>
    simp only [dt_str_with_fmt_str_to_utc_time_ms, h]

/-- Claim C7 witness: a concrete environment whose parse fails produces the
typed parse error. -/
theorem claim_C7_has_tz_error_handling_witness :
    envNoParse.parseFromStr (rust_trim sampleDT) (fmtWithT ++ pctHashZ) = none ∧
    dt_str_with_fmt_str_to_utc_time_ms envNoParse sampleDT fmtWithT .HasTz =
      .error .parse :=
  ⟨rfl, (claim_C7_has_tz_error_handling envNoParse sampleDT fmtWithT).1 rfl⟩

/-! ## Claim C8: whitespace invariance -/

/-- Strings of whitespace contribute no occurrences of a non-whitespace
character. -/
lemma count_append_ws {ws1 ws2 s : List Char} (c : Char)
    (hc : rustIsWhitespace c = false)
    (h1 : ∀ d ∈ ws1, rustIsWhitespace d = true)
    (h2 : ∀ d ∈ ws2, rustIsWhitespace d = true) :
    (ws1 ++ s ++ ws2).count c = s.count c := by
  rw [List.append_assoc, List.count_append, List.count_append]
  have z1 : ws1.count c = 0 :=
    List.count_eq_zero.mpr fun hm => by rw [h1 c hm] at hc; exact Bool.noConfusion hc
  have z2 : ws2.count c = 0 :=
    List.count_eq_zero.mpr fun hm => by rw [h2 c hm] at hc; exact Bool.noConfusion hc
  omega

/-- Trimming removes exactly the added leading and trailing whitespace. -/
lemma rust_trim_append_ws {ws1 ws2 s : List Char}
    (h1 : ∀ c ∈ ws1, rustIsWhitespace c = true)
    (h2 : ∀ c ∈ ws2, rustIsWhitespace c = true) :
    rust_trim (ws1 ++ s ++ ws2) = rust_trim s := by
  unfold rust_trim
  rw [List.append_assoc, List.dropWhile_append_of_pos h1, List.dropWhile_append]
  by_cases he : (List.dropWhile rustIsWhitespace s).isEmpty
  · rw [if_pos he]
    have hs : List.dropWhile rustIsWhitespace s = [] := List.isEmpty_iff.mp he
    have hw : List.dropWhile rustIsWhitespace ws2 = [] := by
      rw [List.dropWhile_eq_nil_iff]
      exact h2
    rw [hs, hw]
  · rw [if_neg he]
    rw [List.reverse_append,
      List.dropWhile_append_of_pos fun c hc => h2 c (List.mem_reverse.mp hc)]

/-- Claim C8: for every environment, policy and input string, adding any
leading and trailing whitespace does not change the result of
`dt_str_to_utc_time_ms`: the `T` count is unaffected (whitespace is never `T`)
and the string is trimmed before parsing. -/
theorem claim_C8_whitespace_invariance (env : ChronoEnv) (tz : TzMassaging)
    (s ws1 ws2 : List Char)
    (h1 : ∀ c ∈ ws1, rustIsWhitespace c = true)
    (h2 : ∀ c ∈ ws2, rustIsWhitespace c = true) :
    dt_str_to_utc_time_ms env (ws1 ++ s ++ ws2) tz = dt_str_to_utc_time_ms env s tz := by
  have hT : rustIsWhitespace 'T' = false := by decide
  have hcount := count_append_ws (s := s) 'T' hT h1 h2
  have htrim := rust_trim_append_ws (s := s) h1 h2
  unfold dt_str_to_utc_time_ms
  rw [hcount]
  by_cases hc : s.count 'T' = 1
  · rw [if_pos hc, if_pos hc]
    unfold dt_str_with_fmt_str_to_utc_time_ms
    rw [htrim]
  · rw [if_neg hc, if_neg hc]
    unfold dt_str_with_fmt_str_to_utc_time_ms
    rw [htrim]

/-- Claim C8 witness: concrete spaces around a concrete string, in a concrete
environment, leave the parse result unchanged. -/
theorem claim_C8_whitespace_invariance_witness :
    dt_str_to_utc_time_ms envConst ([' ', ' '] ++ sampleDT ++ [' ']) .CondAddTzUtc =
      dt_str_to_utc_time_ms envConst sampleDT .CondAddTzUtc :=
  claim_C8_whitespace_invariance envConst .CondAddTzUtc sampleDT [' ', ' '] [' ']
    (by decide) (by decide)

/-! ## Claim C9: the RFC3339 string formatters -/

/-- The decimal digit character for `d < 10`. -/
def digitChar (d : Nat) : Char := Char.ofNat (48 + d)

/-- Two decimal digits, zero-padded. -/
def pad2 (n : Nat) : List Char := [digitChar (n / 10 % 10), digitChar (n % 10)]

/-- Three decimal digits, zero-padded. -/
def pad3 (n : Nat) : List Char :=
  [digitChar (n / 100 % 10), digitChar (n / 10 % 10), digitChar (n % 10)]

/-- Four decimal digits, zero-padded. -/
def pad4 (n : Nat) : List Char :=
  [digitChar (n / 1000 % 10), digitChar (n / 100 % 10), digitChar (n / 10 % 10),
   digitChar (n % 10)]

/-- The proleptic-Gregorian date of a day count relative to 1970-01-01
(standard civil-from-days computation over mathematical integers). -/
def civil_from_days (z0 : Int) : Int × Int × Int :=
  let z := z0 + 719468
  let era := z.fdiv 146097
  let doe := z - era * 146097
  let yoe := (doe - doe.tdiv 1460 + doe.tdiv 36524 - doe.tdiv 146096).tdiv 365
  let y := yoe + era * 400
  let doy := doe - (365 * yoe + yoe.tdiv 4 - yoe.tdiv 100)
  let mp := (5 * doy + 2).tdiv 153
  let d := doy - (153 * mp + 2).tdiv 5 + 1
  let m := mp + (if mp < 10 then 3 else -9)
  (y + (if m ≤ 2 then 1 else 0), m, d)

/-- Modelled from chrono (an external dependency of the crate):
`to_rfc3339_opts(SecondsFormat::Millis, use_z)` of a UTC datetime renders
`YYYY-MM-DDTHH:MM:SS.mmm` followed by `Z` when `use_z` and by `+00:00`
otherwise. -/
def to_rfc3339_millis (d : DateTimeUtc) (use_z : Bool) : List Char :=
  let days := d.secs.fdiv 86400
  let sod := (d.secs - days * 86400).toNat
  let ymd := civil_from_days days
  let ms := d.nsecs.toNat / 1000000
  pad4 ymd.1.toNat ++ ['-'] ++ pad2 ymd.2.1.toNat ++ ['-'] ++ pad2 ymd.2.2.toNat ++ ['T'] ++
    pad2 (sod / 3600) ++ [':'] ++ pad2 (sod / 60 % 60) ++ [':'] ++ pad2 (sod % 60) ++ ['.'] ++
    pad3 ms ++ (if use_z then ['Z'] else "+00:00".toList)

/-- `time_ms_to_utc_string` from src/lib.rs lines 51-53. -/
def time_ms_to_utc_string (time_ms : Int) : List Char :=
  to_rfc3339_millis (time_ms_to_utc time_ms) false

/-- `time_ms_to_utc_z_string` from src/lib.rs lines 55-57. -/
def time_ms_to_utc_z_string (time_ms : Int) : List Char :=
  to_rfc3339_millis (time_ms_to_utc time_ms) true

/-- Claim C9: at `time_ms = 0` the Zulu formatter renders exactly
`1970-01-01T00:00:00.000Z` and the numeric-offset formatter renders exactly
`1970-01-01T00:00:00.000+00:00`. -/
theorem claim_C9_epoch_strings :
    time_ms_to_utc_z_string 0 = "1970-01-01T00:00:00.000Z".toList ∧
    time_ms_to_utc_string 0 = "1970-01-01T00:00:00.000+00:00".toList := by
  decide

/-! ## The full round-trip characterization -/

/-- The ms-to-UTC-to-ms round trip is the identity exactly on non-negative
inputs; every negative input comes back incremented by one, because the
truncating division in `utc_to_time_ms` rounds toward zero. -/
lemma roundtrip_characterization (t : Int) :
    utc_to_time_ms (time_ms_to_utc t) = if 0 ≤ t then t else t + 1 := by
  have hnan := time_ms_to_secs_nsecs_nanos t
  unfold utc_to_time_ms time_ms_to_utc DateTimeUtc.timestamp_nanos
  rw [hnan]
  rcases le_or_lt 0 t with h | h
  · rw [if_pos h]
    have h2 : (0:Int) ≤ t * 1000000 + 500000 := by omega
    rw [Int.tdiv_eq_ediv (b := 1000000) h2 (by omega)]
    omega
  · rw [if_neg (by omega)]
    have h1 : t * 1000000 + 500000 = -(-(t * 1000000 + 500000)) := by ring
    have h2 : (0:Int) ≤ -(t * 1000000 + 500000) := by omega
    rw [h1, Int.neg_tdiv, Int.tdiv_eq_ediv (b := 1000000) h2 (by omega)]
    omega
